import Mathlib

/-!
Verification of the SAR_Processing download pipeline.

This file shallowly embeds the chunked-download pipeline of the repository:

* `download_product` (src/app.py lines 127-259; the identical copy lives in
  src/copernicus_hub.py lines 85-216): directory creation, filename
  sanitization, existing-file short-circuit, write-permission marker test,
  redirect following, HEAD size probe, disk-space guard, chunked streaming to
  a `.part` temp file with throttled progress reporting, in-memory mirroring
  for small files, and the final rename.
* `download_worker` (src/download_handler.py lines 8-39): the subprocess
  variant that streams directly to the final path and reports through a queue.

External effects (filesystem tests, HTTP responses, free-space probe, the
chunk stream, a mid-stream exception) are supplied by an explicit environment
`Env`; the run is a pure function from the environment to an outcome together
with the trace of observable events and the resulting filesystem state.
Python floats are modelled by exact rationals, machine integers by `Nat`.
The only unbounded construct in the source, the redirect `while` loop, is
modelled with explicit fuel: a `none` result means the loop is still running
after `fuel` requests.
-/

/-- An HTTP response as seen by the redirect loop: a status code and the
value of the `Location` header. -/
structure HResp where
  status : Nat
  location : String

/-- The redirect statuses followed by the source:
`while response.status in (301, 302, 303, 307)`. -/
def isRedirect (s : Nat) : Bool :=
  s == 301 || s == 302 || s == 303 || s == 307

/-- Which call site issued an HTTP request. -/
inductive ReqKind where
  | redirectGet
  | headProbe
  | bodyGet
deriving DecidableEq, Repr

/-- Observable events of one `download_product` run, in order. -/
inductive Event where
  | makedirs
  | markerTest
  | request (kind : ReqKind) (url : String) (auth : String)
  | chunkWrite (size : Nat)
  | progress (downloaded total : Nat) (percent : ℚ)
  | removeTemp
  | renameTempToFinal
deriving DecidableEq, Repr

/-- Outcome of one `download_product` run.  Each constructor corresponds to
one `return` site of the Python function:
* `alreadyExists path` — `return output_path, True`;
* `dirCreateFailed` — the `os.makedirs` except-branch;
* `noWritePermission` — the `.write_test` except-branch;
* `insufficientDiskSpace total free` — the free-space guard branch;
* `streamFailed` — the mid-stream except-branch (`return None, False`);
* `completed path mem` — `return (output_path, browser_data), False`, where
  `mem` is the optional in-memory copy (modelled by the mirrored chunk sizes). -/
inductive Outcome where
  | alreadyExists (path : String)
  | dirCreateFailed
  | noWritePermission
  | insufficientDiskSpace (total free : Nat)
  | streamFailed
  | completed (path : String) (inMemoryCopy : Option (List Nat))
deriving DecidableEq, Repr

/-- Result of a run: the outcome, the event trace, and whether a file exists
at the final path `<sanitized_name>.zip` resp. at the temp path
`<sanitized_name>.zip.part` afterwards. -/
structure DPResult where
  outcome : Outcome
  events : List Event
  finalExists : Bool
  tempExists : Bool
deriving DecidableEq, Repr

/-- Environment of one run: all inputs and all answers the outside world
gives to the code.  `headResult = some t` means the HEAD probe succeeded and
`int(response.headers.get('content-length', 0))` evaluated to `t` (so `t = 0`
when the header is absent); `headResult = none` means the probe raised.
`freeSpace = none` means `shutil.disk_usage` raised.  `chunks` are the sizes
of the chunks yielded by `iter_chunked(8192)` (a `0` is an empty chunk, which
the source skips via `if chunk:`).  `failAfter = some k` forces an exception
in the streaming loop at its `k`-th iteration (counting from 0), modelling a
mid-stream network or write failure; `removeTempOk` says whether the
best-effort `os.remove` of the temp file succeeds.  `isalnum` is the Python
runtime's `str.isalnum` predicate (see `pyIsAlnum`); concrete environments
instantiate it with `pyIsAlnum` and keep product names within the range
where that restriction is exact. -/
structure Env where
  productId : String
  token : String
  productName : String
  outputDir : String
  isalnum : Char → Bool
  dirExists : Bool
  makedirsOk : Bool
  fileAtFinal : Bool
  dirWritable : Bool
  server : String → HResp
  headResult : Option Nat
  freeSpace : Option Nat
  getTotal : Nat
  chunks : List Nat
  failAfter : Option Nat
  removeTempOk : Bool

/-- Python's `str.isalnum` is Unicode-aware and its character table is not
finitely reproduced here; the sanitizer below is therefore parametric in the
alphanumeric predicate, and the program is its instance at the runtime's
actual predicate.  `pyIsAlnum` is that predicate restricted to code points
up to U+00FF, where it is modelled exactly — true on ASCII letters and
digits, on the Latin-1 letters U+00C0..U+00FF except the signs `×` (U+00D7)
and `÷` (U+00F7), and on `ª µ º ² ³ ¹ ¼ ½ ¾` — and it is used only to
instantiate concrete runs whose product names stay within that exact range
(above U+00FF Python is true on further letters and digits, e.g. `Ω`). -/
def pyIsAlnum (c : Char) : Bool :=
  let n := c.toNat
  (65 ≤ n && n ≤ 90) || (97 ≤ n && n ≤ 122) || (48 ≤ n && n ≤ 57) ||
    n == 0xAA || n == 0xB5 || n == 0xBA ||
    n == 0xB2 || n == 0xB3 || n == 0xB9 ||
    n == 0xBC || n == 0xBD || n == 0xBE ||
    (0xC0 ≤ n && n ≤ 0xFF && n != 0xD7 && n != 0xF7)

/-- The character filter of the source, parametric in Python's alphanumeric
predicate: `c.isalnum() or c in (' ', '-', '_', '.')`. -/
def keepChar (isalnum : Char → Bool) (c : Char) : Bool :=
  isalnum c || c == ' ' || c == '-' || c == '_' || c == '.'

/-- Python's whitespace characters stripped by `str.strip()`. -/
def isPySpace (c : Char) : Bool :=
  c == ' ' || c == '\t' || c == '\n' || c == '\r' || c == '\x0b' || c == '\x0c'

/-- Python `str.strip()`: drop leading and trailing whitespace. -/
def pyStrip (l : List Char) : List Char :=
  ((l.dropWhile isPySpace).reverse.dropWhile isPySpace).reverse

/-- The sanitizer of the source, parametric in Python's alphanumeric
predicate:
`"".join(c for c in product_name if c.isalnum() or c in (' ', '-', '_', '.')).strip()`. -/
def cleanName (isalnum : Char → Bool) (name : List Char) : List Char :=
  pyStrip (name.filter (keepChar isalnum))

/-- The filename derived from a product name: sanitized name plus `.zip`. -/
def derivedFilename (isalnum : Char → Bool) (name : List Char) : List Char :=
  cleanName isalnum name ++ (".zip").toList

/-- The ASCII whitelist `[A-Za-z0-9 _.-]` named by the specification. -/
def inWhitelist (c : Char) : Bool :=
  let n := c.toNat
  (65 ≤ n && n ≤ 90) || (97 ≤ n && n ≤ 122) || (48 ≤ n && n ≤ 57) ||
    c == ' ' || c == '-' || c == '_' || c == '.'

/-- `output_path = os.path.join(output_dir, f"{clean_name}.zip")`, modelled
for a directory path without trailing separator and a relative filename. -/
def finalPath (env : Env) : String :=
  env.outputDir ++ "/" ++
    String.mk (cleanName env.isalnum env.productName.toList) ++ ".zip"

/-- `url = f"{COPERNICUS_CATALOG_URL}({product_id})/$value"`. -/
def startUrl (env : Env) : String :=
  "https://catalogue.dataspace.copernicus.eu/odata/v1/Products(" ++
    env.productId ++ ")/$value"

/-- `headers = {"Authorization": f"Bearer {token}"}`. -/
def bearer (token : String) : String := "Bearer " ++ token

/-- The redirect loop of the source, with explicit fuel.  The source issues a
request for `url`; while the status is a redirect status it re-issues the
request against the `Location` header, always passing the same authorization
header and never auto-following.  A `none` final URL means the unbounded
`while` loop is still running after `fuel` requests (the source enforces no
hop cap). -/
def resolveGo (server : String → HResp) (auth : String) :
    Nat → String → List Event × Option String
  | 0, _ => ([], none)
  | n + 1, url =>
    let r := server url
    if isRedirect r.status then
      let rest := resolveGo server auth n r.location
      (Event.request .redirectGet url auth :: rest.1, rest.2)
    else
      ([Event.request .redirectGet url auth], some url)

/-- `progress = (downloaded / total_size) * 100 if total_size > 0 else 0`,
as an exact rational. -/
def pct (d t : Nat) : ℚ :=
  if 0 < t then (d * 100 : ℚ) / t else 0

/-- The throttling test `int(progress) % 2 == 0 or downloaded == total_size`.
For exact arithmetic `int(progress)` is `d * 100 / t` in truncated integer
division (and `0` when `t = 0`, which `Nat` division gives for free). -/
def emitCond (d t : Nat) : Bool :=
  (d * 100 / t) % 2 == 0 || d == t

/-- State produced by the streaming loop: its events, the final value of
`downloaded`, the chunk sizes mirrored into the in-memory buffer, and whether
the loop was aborted by an exception. -/
structure StreamOut where
  events : List Event
  downloaded : Nat
  mirrored : List Nat
  aborted : Bool
deriving DecidableEq, Repr

/-- The chunk loop of `download_product`:
for each chunk, skip it when empty (`if chunk:`), otherwise write it to the
temp file, mirror it when `mir` is set, bump `downloaded`, and emit a
progress event when the throttling test passes.  `fa = some 0` raises the
modelled mid-stream exception at the current iteration. -/
def streamGo (total : Nat) (mir : Bool) (chunks : List Nat) (fa : Option Nat)
    (d : Nat) (m : List Nat) : StreamOut :=
  if fa = some 0 then ⟨[], d, m, true⟩
  else
    match chunks with
    | [] => ⟨[], d, m, false⟩
    | c :: rest =>
      if c = 0 then streamGo total mir rest (fa.map (· - 1)) d m
      else
        let d2 := d + c
        let m2 := if mir then m ++ [c] else m
        let here : List Event :=
          Event.chunkWrite c ::
            (if emitCond d2 total then [Event.progress d2 total (pct d2 total)] else [])
        let out := streamGo total mir rest (fa.map (· - 1)) d2 m2
        ⟨here ++ out.events, out.downloaded, out.mirrored, out.aborted⟩

/-- The streaming phase of `download_product`, entered with the total size
`total0` known so far.  It re-derives the size from the GET response when
`total0 = 0`, decides the in-memory mirroring from the resulting size
(`< 200 MiB` and `> 0`), streams chunks into the temp file, and on success
renames the temp path onto the final path; a mid-stream exception removes the
temp file best-effort and fails. -/
def streamPhase (env : Env) (u : String) (total0 : Nat) (pre : List Event) :
    Option DPResult :=
  let total := if total0 = 0 then env.getTotal else total0
  let mir : Bool := decide (0 < total ∧ total < 200 * 1024 * 1024)
  let out := streamGo total mir env.chunks env.failAfter 0 []
  let evs := pre ++ [Event.request .bodyGet u (bearer env.token)] ++ out.events
  if out.aborted then
    some ⟨.streamFailed,
      evs ++ (if env.removeTempOk then [Event.removeTemp] else []),
      env.fileAtFinal, !env.removeTempOk⟩
  else
    some ⟨.completed (finalPath env) (if mir then some out.mirrored else none),
      evs ++ [Event.renameTempToFinal], true, false⟩

/-- Shallow embedding of `download_product` (src/app.py lines 127-259 and the
identical src/copernicus_hub.py lines 85-216), in source order: ensure the
directory, sanitize the name, short-circuit on an existing file, probe write
permission with the `.write_test` marker, follow redirects, HEAD-probe the
size, guard disk space (`free_space < total_size * 1.2`, skipped with a
warning when the probe raises), then stream.  `fuel` bounds only the redirect
loop; `none` means that loop is still running. -/
def downloadProduct (env : Env) (fuel : Nat) : Option DPResult :=
  if !env.dirExists && !env.makedirsOk then
    some ⟨.dirCreateFailed, [], env.fileAtFinal, false⟩
  else
    let pre0 : List Event := if env.dirExists then [] else [Event.makedirs]
    if env.fileAtFinal then
      some ⟨.alreadyExists (finalPath env), pre0, true, false⟩
    else if !env.dirWritable then
      some ⟨.noWritePermission, pre0, env.fileAtFinal, false⟩
    else
      let auth := bearer env.token
      match resolveGo env.server auth fuel (startUrl env) with
      | (_, none) => none
      | (revs, some u) =>
        let pre2 := pre0 ++ [Event.markerTest] ++ revs ++
          [Event.request .headProbe u auth]
        match env.headResult, env.freeSpace with
        | some t, some f =>
          if (f : ℚ) < (t : ℚ) * (6 / 5) then
            some ⟨.insufficientDiskSpace t f, pre2, env.fileAtFinal, false⟩
          else streamPhase env u t pre2
        | some t, none => streamPhase env u t pre2
        | none, _ => streamPhase env u 0 pre2

/-- The total size from the HEAD probe: `0` when the probe raised or the
header was absent. -/
def headTotal (env : Env) : Nat :=
  match env.headResult with
  | some t => t
  | none => 0

/-- The effective total size governing progress and mirroring: the HEAD size
when nonzero, else the size read from the GET response headers. -/
def effTotal (env : Env) : Nat :=
  if headTotal env = 0 then env.getTotal else headTotal env

/-- The disk-space guard does not fire: either the HEAD probe or the
free-space probe failed (the source then proceeds with a warning), or
`free_space < total_size * 1.2` is false. -/
def gateOk (env : Env) : Bool :=
  match env.headResult, env.freeSpace with
  | some t, some f => !(decide ((f : ℚ) < (t : ℚ) * (6 / 5)))
  | _, _ => true

/-- The `downloaded` values of the progress events of a trace, in order. -/
def progressBytes (evs : List Event) : List Nat :=
  evs.filterMap fun e =>
    match e with
    | .progress d _ _ => some d
    | _ => none

/-- The full `(downloaded, total, percent)` triples of the progress events of
a trace, in order. -/
def progressTriples (evs : List Event) : List (Nat × Nat × ℚ) :=
  evs.filterMap fun e =>
    match e with
    | .progress d t p => some (d, t, p)
    | _ => none

/-- A queue message of `download_worker` (src/download_handler.py):
`('progress', progress, downloaded, total_size)`, `('complete', path)` or
`('error', msg)`. -/
inductive WMsg where
  | progress (p : ℚ) (downloaded total : Nat)
  | complete (path : String)
  | error (msg : String)
deriving DecidableEq, Repr

/-- Result of a `download_worker` run: the queue messages in order and
whether a file exists at `output_dir/<product_name>.zip` afterwards. -/
structure WorkerOut where
  msgs : List WMsg
  fileAtFinal : Bool
deriving DecidableEq, Repr

/-- `output_path = os.path.join(output_dir, f"{product_name}.zip")` —
note: `download_worker` applies no sanitization. -/
def workerOutputPath (outputDir productName : String) : String :=
  outputDir ++ "/" ++ productName ++ ".zip"

/-- The `downloaded` values of the progress messages of a worker queue, in
order. -/
def workerProgressBytes (msgs : List WMsg) : List Nat :=
  msgs.filterMap fun m =>
    match m with
    | .progress _ d _ => some d
    | _ => none

/-- The chunk loop of `download_worker`: every nonempty chunk is written to
the final path and reported (no throttling). -/
def workerStream (total : Nat) (chunks : List Nat) (fa : Option Nat)
    (d : Nat) : List WMsg × Nat × Bool :=
  if fa = some 0 then ([], d, true)
  else
    match chunks with
    | [] => ([], d, false)
    | c :: rest =>
      if c = 0 then workerStream total rest (fa.map (· - 1)) d
      else
        let d2 := d + c
        let out := workerStream total rest (fa.map (· - 1)) d2
        (WMsg.progress (pct d2 total) d2 total :: out.1, out.2.1, out.2.2)

/-- Shallow embedding of `download_worker` (src/download_handler.py lines
8-39): build the output path without sanitization, follow redirects with the
session-wide bearer header, read the size from the streaming GET response,
then write chunks directly to `output_path` — there is no temp file, no
existing-file check and no cleanup, so the (possibly truncated) file stays at
the final path when an exception interrupts the loop and only an `error`
message is queued. -/
def downloadWorker (server : String → HResp) (productId token productName
    outputDir : String) (getTotal : Nat) (chunks : List Nat)
    (fa : Option Nat) (fuel : Nat) : Option WorkerOut :=
  let url := "https://catalogue.dataspace.copernicus.eu/odata/v1/Products(" ++
    productId ++ ")/$value"
  match resolveGo server (bearer token) fuel url with
  | (_, none) => none
  | (_, some _) =>
    let out := workerStream getTotal chunks fa 0
    if out.2.2 then
      some ⟨out.1 ++ [WMsg.error "download error"], true⟩
    else
      some ⟨out.1 ++ [WMsg.complete (workerOutputPath outputDir productName)], true⟩

/-- A server on which every response is a `307` redirect: a redirect cycle. -/
def cyc307 : String → HResp := fun _ => ⟨307, "http://mirror.example/next"⟩

/-- A server answering one `302` hop to a second host, then `200`. -/
def twoHopServer : String → HResp := fun u =>
  if u = "https://catalogue.dataspace.copernicus.eu/odata/v1/Products(pid)/$value"
  then ⟨302, "http://payload.example/file"⟩ else ⟨200, ""⟩

/-- A baseline environment used to instantiate the theorems at concrete
inputs: an existing writable directory, no preexisting file, one redirect
hop, a 10-byte file in two chunks, ample free space, no failures. -/
def envBase : Env where
  productId := "pid"
  token := "tok"
  productName := "P1"
  outputDir := "/data"
  isalnum := pyIsAlnum
  dirExists := true
  makedirsOk := true
  fileAtFinal := false
  dirWritable := true
  server := twoHopServer
  headResult := some 10
  freeSpace := some 1000
  getTotal := 0
  chunks := [4, 6]
  failAfter := none
  removeTempOk := true

def envC2 : Env := { envBase with fileAtFinal := true }

def envC10 : Env := { envBase with fileAtFinal := true, dirWritable := false }

/-- The redirect-phase requests of `envBase`-derived runs at fuel 2: the
catalog URL answers one `302` hop to the payload host, which answers `200`. -/
def revsBase : List Event :=
  [Event.request .redirectGet (startUrl envBase) (bearer "tok"),
   Event.request .redirectGet "http://payload.example/file" (bearer "tok")]

def envC5 : Env := { envBase with freeSpace := some 11 }

def envC7 : Env := { envBase with headResult := some 0 }

def envC1 : Env := { envBase with failAfter := some 1 }

lemma pct_self {t : Nat} (ht : 0 < t) : pct t t = 100 := by
  have h0 : ((t : ℚ)) ≠ 0 := by exact_mod_cast ht.ne'
  simp only [pct, if_pos ht]
  rw [div_eq_iff h0]
  ring

lemma streamGo_fa0 (total : Nat) (mir : Bool) (chunks : List Nat) (d : Nat)
    (m : List Nat) : streamGo total mir chunks (some 0) d m = ⟨[], d, m, true⟩ := by
  rw [streamGo.eq_def]
  simp

lemma streamGo_nil (total : Nat) (mir : Bool) (fa : Option Nat) (d : Nat)
    (m : List Nat) (h : fa ≠ some 0) :
    streamGo total mir [] fa d m = ⟨[], d, m, false⟩ := by
  rw [streamGo]
  simp [h]

lemma streamGo_cons_zero (total : Nat) (mir : Bool) (rest : List Nat)
    (fa : Option Nat) (d : Nat) (m : List Nat) (h : fa ≠ some 0) :
    streamGo total mir (0 :: rest) fa d m =
      streamGo total mir rest (fa.map (· - 1)) d m := by
  rw [streamGo]
  simp [h]

lemma streamGo_cons_pos (total : Nat) (mir : Bool) (c : Nat) (rest : List Nat)
    (fa : Option Nat) (d : Nat) (m : List Nat) (h : fa ≠ some 0) (hc : c ≠ 0) :
    streamGo total mir (c :: rest) fa d m =
      let d2 := d + c
      let m2 := if mir then m ++ [c] else m
      let here : List Event :=
        Event.chunkWrite c ::
          (if emitCond d2 total then [Event.progress d2 total (pct d2 total)] else [])
      let out := streamGo total mir rest (fa.map (· - 1)) d2 m2
      ⟨here ++ out.events, out.downloaded, out.mirrored, out.aborted⟩ := by
  conv_lhs => rw [streamGo]
  simp [h, hc]

lemma streamGo_cons_pos_events (total : Nat) (mir : Bool) (c : Nat)
    (rest : List Nat) (fa : Option Nat) (d : Nat) (m : List Nat)
    (h : fa ≠ some 0) (hc : c ≠ 0) :
    (streamGo total mir (c :: rest) fa d m).events =
      Event.chunkWrite c ::
        ((if emitCond (d + c) total then
            [Event.progress (d + c) total (pct (d + c) total)] else []) ++
          (streamGo total mir rest (fa.map (· - 1)) (d + c)
            (if mir then m ++ [c] else m)).events) := by
  rw [streamGo_cons_pos _ _ _ _ _ _ _ h hc]
  simp

lemma emitCond_self (t : Nat) : emitCond t t = true := by
  simp [emitCond]

lemma streamGo_cons_pos_aborted (total : Nat) (mir : Bool) (c : Nat)
    (rest : List Nat) (fa : Option Nat) (d : Nat) (m : List Nat)
    (h : fa ≠ some 0) (hc : c ≠ 0) :
    (streamGo total mir (c :: rest) fa d m).aborted =
      (streamGo total mir rest (fa.map (· - 1)) (d + c)
        (if mir then m ++ [c] else m)).aborted := by
  rw [streamGo_cons_pos _ _ _ _ _ _ _ h hc]

lemma streamGo_none_not_aborted (total : Nat) (mir : Bool) :
    ∀ (chunks : List Nat) (d : Nat) (m : List Nat),
      (streamGo total mir chunks none d m).aborted = false := by
  intro chunks
  induction chunks with
  | nil => intro d m; rw [streamGo_nil] <;> simp
  | cons c rest ih =>
    intro d m
    by_cases hc : c = 0
    · subst hc
      rw [streamGo_cons_zero] <;> simp [ih]
    · rw [streamGo_cons_pos] <;> simp [ih, hc]

lemma streamGo_some_aborted (total : Nat) (mir : Bool) :
    ∀ (chunks : List Nat) (k : Nat) (d : Nat) (m : List Nat),
      k ≤ chunks.length →
      (streamGo total mir chunks (some k) d m).aborted = true := by
  intro chunks
  induction chunks with
  | nil =>
    intro k d m hk
    have hk0 : k = 0 := by simpa using hk
    subst hk0
    rw [streamGo_fa0]
  | cons c rest ih =>
    intro k d m hk
    by_cases hk0 : k = 0
    · subst hk0; rw [streamGo_fa0]
    · have hne : (some k : Option Nat) ≠ some 0 := by simp [hk0]
      have hk' : k - 1 ≤ rest.length := by
        simp only [List.length_cons] at hk; omega
      by_cases hc : c = 0
      · subst hc
        rw [streamGo_cons_zero _ _ _ _ _ _ hne]
        simpa using ih (k - 1) d m hk'
      · rw [streamGo_cons_pos_aborted _ _ _ _ _ _ _ hne hc]
        simpa using ih (k - 1) (d + c) (if mir then m ++ [c] else m) hk'

lemma streamGo_sum_zero (total : Nat) (mir : Bool) :
    ∀ (chunks : List Nat) (d : Nat) (m : List Nat), chunks.sum = 0 →
      streamGo total mir chunks none d m = ⟨[], d, m, false⟩ := by
  intro chunks
  induction chunks with
  | nil => intro d m _; rw [streamGo_nil] <;> simp
  | cons c rest ih =>
    intro d m hs
    have hc : c = 0 := by simp at hs; omega
    have hr : rest.sum = 0 := by simp at hs; omega
    subst hc
    rw [streamGo_cons_zero _ _ _ _ _ _ (by simp)]
    simpa using ih d m hr

lemma progressBytes_append (l₁ l₂ : List Event) :
    progressBytes (l₁ ++ l₂) = progressBytes l₁ ++ progressBytes l₂ := by
  simp [progressBytes]

lemma progressBytes_nil : progressBytes [] = [] := by
  simp [progressBytes]

lemma progressBytes_single_req (k : ReqKind) (u a : String) :
    progressBytes [Event.request k u a] = [] := by
  simp [progressBytes]

lemma progressBytes_removeTemp : progressBytes [Event.removeTemp] = [] := by
  simp [progressBytes]

lemma progressBytes_rename : progressBytes [Event.renameTempToFinal] = [] := by
  simp [progressBytes]

lemma progressBytes_cons_req (k : ReqKind) (u a : String) (l : List Event) :
    progressBytes (Event.request k u a :: l) = progressBytes l := by
  simp [progressBytes]

lemma progressTriples_append (l₁ l₂ : List Event) :
    progressTriples (l₁ ++ l₂) = progressTriples l₁ ++ progressTriples l₂ := by
  simp [progressTriples]

lemma streamGo_progress_mono (total : Nat) (mir : Bool) :
    ∀ (chunks : List Nat) (fa : Option Nat) (d : Nat) (m : List Nat),
      List.Chain' (· ≤ ·) (progressBytes (streamGo total mir chunks fa d m).events) ∧
      ∀ x ∈ progressBytes (streamGo total mir chunks fa d m).events, d ≤ x := by
  intro chunks
  induction chunks with
  | nil =>
    intro fa d m
    by_cases h : fa = some 0
    · subst h; rw [streamGo_fa0]; simp [progressBytes]
    · rw [streamGo_nil _ _ _ _ _ h]; simp [progressBytes]
  | cons c rest ih =>
    intro fa d m
    by_cases h : fa = some 0
    · subst h; rw [streamGo_fa0]; simp [progressBytes]
    · by_cases hc : c = 0
      · subst hc
        rw [streamGo_cons_zero _ _ _ _ _ _ h]
        exact ih _ _ _
      · obtain ⟨ihc, ihb⟩ := ih (fa.map (· - 1)) (d + c) (if mir then m ++ [c] else m)
        by_cases he : emitCond (d + c) total
        · have hred : progressBytes (streamGo total mir (c :: rest) fa d m).events =
              (d + c) :: progressBytes (streamGo total mir rest (fa.map (· - 1))
                (d + c) (if mir then m ++ [c] else m)).events := by
            rw [streamGo_cons_pos_events _ _ _ _ _ _ _ h hc]
            simp [progressBytes, he]
          rw [hred]
          constructor
          · refine List.chain'_cons'.2 ⟨?_, ihc⟩
            intro y hy
            exact ihb y (List.mem_of_mem_head? hy)
          · intro x hx
            rcases List.mem_cons.1 hx with rfl | hx
            · omega
            · exact (Nat.le_add_right d c).trans (ihb x hx)
        · have hred : progressBytes (streamGo total mir (c :: rest) fa d m).events =
              progressBytes (streamGo total mir rest (fa.map (· - 1))
                (d + c) (if mir then m ++ [c] else m)).events := by
            rw [streamGo_cons_pos_events _ _ _ _ _ _ _ h hc]
            simp [progressBytes, he]
          rw [hred]
          exact ⟨ihc, fun x hx => (Nat.le_add_right d c).trans (ihb x hx)⟩

lemma streamGo_last_progress (total : Nat) (mir : Bool) :
    ∀ (chunks : List Nat) (d : Nat) (m : List Nat),
      d + chunks.sum = total → 0 < chunks.sum →
      ∃ pre, (streamGo total mir chunks none d m).events =
        pre ++ [Event.progress total total (pct total total)] := by
  intro chunks
  induction chunks with
  | nil => intro d m _ hpos; simp at hpos
  | cons c rest ih =>
    intro d m hsum hpos
    by_cases hc : c = 0
    · subst hc
      rw [streamGo_cons_zero _ _ _ _ _ _ (by simp), Option.map_none']
      exact ih d m (by simpa using hsum) (by simpa using hpos)
    · rw [streamGo_cons_pos_events _ _ _ _ _ _ _ (by simp) hc, Option.map_none']
      by_cases hr : rest.sum = 0
      · have hd2 : d + c = total := by simp at hsum; omega
        rw [streamGo_sum_zero _ _ _ _ _ hr]
        refine ⟨[Event.chunkWrite c], ?_⟩
        simp [hd2, emitCond_self]
      · have hsum' : (d + c) + rest.sum = total := by simp at hsum; omega
        obtain ⟨pre, hpre⟩ :=
          ih (d + c) (if mir then m ++ [c] else m) hsum' (Nat.pos_of_ne_zero hr)
        rw [hpre]
        refine ⟨Event.chunkWrite c ::
          ((if emitCond (d + c) total then
            [Event.progress (d + c) total (pct (d + c) total)] else []) ++ pre), ?_⟩
        simp [List.append_assoc]

lemma streamGo_total_zero_progress (mir : Bool) :
    ∀ (chunks : List Nat) (fa : Option Nat) (d : Nat) (m : List Nat)
      (d' t' : Nat) (p' : ℚ),
      Event.progress d' t' p' ∈ (streamGo 0 mir chunks fa d m).events →
      t' = 0 ∧ p' = 0 := by
  intro chunks
  induction chunks with
  | nil =>
    intro fa d m d' t' p' hmem
    by_cases h : fa = some 0
    · subst h; rw [streamGo_fa0] at hmem; simp at hmem
    · rw [streamGo_nil _ _ _ _ _ h] at hmem; simp at hmem
  | cons c rest ih =>
    intro fa d m d' t' p' hmem
    by_cases h : fa = some 0
    · subst h; rw [streamGo_fa0] at hmem; simp at hmem
    · by_cases hc : c = 0
      · subst hc
        rw [streamGo_cons_zero _ _ _ _ _ _ h] at hmem
        exact ih _ _ _ _ _ _ hmem
      · rw [streamGo_cons_pos_events _ _ _ _ _ _ _ h hc] at hmem
        rcases List.mem_cons.1 hmem with h1 | h2
        · cases h1
        · rcases List.mem_append.1 h2 with h3 | h4
          · by_cases he : emitCond (d + c) 0 <;> simp [he] at h3
            exact ⟨h3.2.1, by rw [h3.2.2]; simp [pct]⟩
          · exact ih _ _ _ _ _ _ h4

lemma resolveGo_events_auth (server : String → HResp) (auth : String) :
    ∀ (n : Nat) (url : String) (e : Event),
      e ∈ (resolveGo server auth n url).1 →
      ∃ u', e = Event.request .redirectGet u' auth := by
  intro n
  induction n with
  | zero => intro url e he; simp [resolveGo] at he
  | succ n ih =>
    intro url e he
    by_cases hr : isRedirect (server url).status
    · simp only [resolveGo, hr, if_true] at he
      rcases List.mem_cons.1 he with rfl | he2
      · exact ⟨url, rfl⟩
      · exact ih _ _ he2
    · simp only [resolveGo, hr, if_false, Bool.false_eq_true] at he
      simp at he
      exact ⟨url, by rw [he]⟩

lemma progressBytes_resolveGo (server : String → HResp) (auth : String) :
    ∀ (n : Nat) (url : String),
      progressBytes (resolveGo server auth n url).1 = [] := by
  intro n
  induction n with
  | zero => intro url; simp [resolveGo, progressBytes]
  | succ n ih =>
    intro url
    by_cases hr : isRedirect (server url).status
    · have := ih (server url).location
      simp only [progressBytes] at this ⊢
      simp [resolveGo, hr, this]
    · simp [resolveGo, hr, progressBytes]

lemma resolveGo_allRedirect (server : String → HResp) (auth : String)
    (h : ∀ u, isRedirect (server u).status = true) :
    ∀ (n : Nat) (url : String), (resolveGo server auth n url).2 = none := by
  intro n
  induction n with
  | zero => intro url; simp [resolveGo]
  | succ n ih =>
    intro url
    simp [resolveGo, h url, ih]

lemma gateOk_of_head_zero (env : Env) (h : env.headResult = some 0) :
    gateOk env = true := by
  cases hf : env.freeSpace with
  | none => simp [gateOk, h, hf]
  | some f =>
    have h0 : ¬ ((f : ℚ) < ((0 : Nat) : ℚ) * (6 / 5)) := by
      rw [Nat.cast_zero, zero_mul]
      exact not_lt.2 (by positivity)
    simp [gateOk, h, hf, h0]

lemma dp_happy (env : Env) (fuel : Nat) (revs : List Event) (u : String)
    (hdir : env.dirExists = true) (hfile : env.fileAtFinal = false)
    (hw : env.dirWritable = true)
    (hres : resolveGo env.server (bearer env.token) fuel (startUrl env) =
      (revs, some u))
    (hgate : gateOk env = true) :
    downloadProduct env fuel =
      streamPhase env u (headTotal env)
        ([Event.markerTest] ++ revs ++
          [Event.request .headProbe u (bearer env.token)]) := by
  rcases h1 : env.headResult with _ | t
  · simp [downloadProduct, hdir, hfile, hw, hres, h1, headTotal]
  · rcases h2 : env.freeSpace with _ | f
    · simp [downloadProduct, hdir, hfile, hw, hres, h1, h2, headTotal]
    · have hnl : ¬ ((f : ℚ) < (t : ℚ) * (6 / 5)) := by
        simpa [gateOk, h1, h2] using hgate
      simp [downloadProduct, hdir, hfile, hw, hres, h1, h2, headTotal, hnl]

lemma dp_insufficient (env : Env) (fuel : Nat) (revs : List Event) (u : String)
    (t f : Nat)
    (hdir : env.dirExists = true) (hfile : env.fileAtFinal = false)
    (hw : env.dirWritable = true)
    (hres : resolveGo env.server (bearer env.token) fuel (startUrl env) =
      (revs, some u))
    (hhead : env.headResult = some t) (hfree : env.freeSpace = some f)
    (hlt : (f : ℚ) < (t : ℚ) * (6 / 5)) :
    downloadProduct env fuel =
      some ⟨.insufficientDiskSpace t f,
        [Event.markerTest] ++ revs ++
          [Event.request .headProbe u (bearer env.token)],
        false, false⟩ := by
  simp [downloadProduct, hdir, hfile, hw, hres, hhead, hfree, hlt]

lemma streamPhase_of_none (env : Env) (u : String) (total0 : Nat)
    (pre : List Event) (hfa : env.failAfter = none) :
    streamPhase env u total0 pre =
      (let total := if total0 = 0 then env.getTotal else total0
       let mir : Bool := decide (0 < total ∧ total < 200 * 1024 * 1024)
       let out := streamGo total mir env.chunks none 0 []
       some ⟨.completed (finalPath env) (if mir then some out.mirrored else none),
         (pre ++ [Event.request .bodyGet u (bearer env.token)] ++ out.events) ++
           [Event.renameTempToFinal], true, false⟩) := by
  simp only [streamPhase, hfa, streamGo_none_not_aborted]
  simp

lemma streamGo_events_shape (total : Nat) (mir : Bool) :
    ∀ (chunks : List Nat) (fa : Option Nat) (d : Nat) (m : List Nat)
      (e : Event), e ∈ (streamGo total mir chunks fa d m).events →
      (∃ c, e = Event.chunkWrite c) ∨
      (∃ d' t' p', e = Event.progress d' t' p') := by
  intro chunks
  induction chunks with
  | nil =>
    intro fa d m e he
    by_cases h : fa = some 0
    · subst h; rw [streamGo_fa0] at he; simp at he
    · rw [streamGo_nil _ _ _ _ _ h] at he; simp at he
  | cons c rest ih =>
    intro fa d m e he
    by_cases h : fa = some 0
    · subst h; rw [streamGo_fa0] at he; simp at he
    · by_cases hc : c = 0
      · subst hc
        rw [streamGo_cons_zero _ _ _ _ _ _ h] at he
        exact ih _ _ _ _ he
      · rw [streamGo_cons_pos_events _ _ _ _ _ _ _ h hc] at he
        rcases List.mem_cons.1 he with rfl | h2
        · exact Or.inl ⟨c, rfl⟩
        · rcases List.mem_append.1 h2 with h3 | h4
          · by_cases hcond : emitCond (d + c) total <;> simp [hcond] at h3
            exact Or.inr ⟨d + c, total, pct (d + c) total, by simp [h3]⟩
          · exact ih _ _ _ _ h4

lemma mem_pre2_shapes {env : Env} {fuel : Nat} {revs : List Event} {u : String}
    {e : Event}
    (hres : resolveGo env.server (bearer env.token) fuel (startUrl env) =
      (revs, some u))
    (he : e ∈ [Event.markerTest] ++ revs ++
      [Event.request .headProbe u (bearer env.token)]) :
    e = Event.markerTest ∨
    (∃ u', e = Event.request .redirectGet u' (bearer env.token)) ∨
    e = Event.request .headProbe u (bearer env.token) := by
  simp only [List.mem_append, List.mem_singleton, List.mem_cons,
    List.not_mem_nil, or_false] at he
  rcases he with (h1 | h2) | h3
  · exact Or.inl h1
  · refine Or.inr (Or.inl ?_)
    have h2' : e ∈ (resolveGo env.server (bearer env.token) fuel
        (startUrl env)).1 := by rw [hres]; exact h2
    exact resolveGo_events_auth _ _ _ _ _ h2'
  · exact Or.inr (Or.inr h3)

lemma streamPhase_bodyGet (env : Env) (u : String) (total0 : Nat)
    (pre : List Event) :
    ∃ r, streamPhase env u total0 pre = some r ∧
      Event.request .bodyGet u (bearer env.token) ∈ r.events := by
  simp only [streamPhase]
  by_cases hab : (streamGo (if total0 = 0 then env.getTotal else total0)
      (decide (0 < (if total0 = 0 then env.getTotal else total0) ∧
        (if total0 = 0 then env.getTotal else total0) < 200 * 1024 * 1024))
      env.chunks env.failAfter 0 []).aborted
  · rw [if_pos hab]
    exact ⟨_, rfl, by simp⟩
  · rw [if_neg hab]
    exact ⟨_, rfl, by simp⟩

lemma streamPhase_of_abort (env : Env) (u : String) (total0 : Nat)
    (pre : List Event) (k : Nat) (hfa : env.failAfter = some k)
    (hk : k ≤ env.chunks.length) :
    streamPhase env u total0 pre =
      (let total := if total0 = 0 then env.getTotal else total0
       let mir : Bool := decide (0 < total ∧ total < 200 * 1024 * 1024)
       let out := streamGo total mir env.chunks (some k) 0 []
       some ⟨.streamFailed,
         (pre ++ [Event.request .bodyGet u (bearer env.token)] ++ out.events) ++
           (if env.removeTempOk then [Event.removeTemp] else []),
         env.fileAtFinal, !env.removeTempOk⟩) := by
  simp only [streamPhase, hfa]
  rw [streamGo_some_aborted _ _ _ _ _ _ hk]
  simp

lemma streamPhase_progressBytes (env : Env) (u : String) (total0 : Nat)
    (pre : List Event) (r : DPResult) (hpre : progressBytes pre = [])
    (hr : streamPhase env u total0 pre = some r) :
    ∃ total mir, progressBytes r.events =
      progressBytes (streamGo total mir env.chunks env.failAfter 0 []).events := by
  simp only [streamPhase] at hr
  refine ⟨if total0 = 0 then env.getTotal else total0,
    decide (0 < (if total0 = 0 then env.getTotal else total0) ∧
      (if total0 = 0 then env.getTotal else total0) < 200 * 1024 * 1024), ?_⟩
  by_cases hab : (streamGo (if total0 = 0 then env.getTotal else total0)
      (decide (0 < (if total0 = 0 then env.getTotal else total0) ∧
        (if total0 = 0 then env.getTotal else total0) < 200 * 1024 * 1024))
      env.chunks env.failAfter 0 []).aborted = true
  · rw [if_pos hab] at hr
    obtain rfl := Option.some.inj hr
    by_cases hok : env.removeTempOk = true <;>
      simp [hok, progressBytes_append, hpre, progressBytes_single_req,
        progressBytes_nil, progressBytes_removeTemp, progressBytes_cons_req,
        progressBytes_rename]
  · rw [if_neg hab] at hr
    obtain rfl := Option.some.inj hr
    simp [progressBytes_append, hpre, progressBytes_single_req,
      progressBytes_nil, progressBytes_rename, progressBytes_cons_req]

lemma progressBytes_revs {env : Env} {fuel : Nat} {revs : List Event}
    {u : String}
    (hres : resolveGo env.server (bearer env.token) fuel (startUrl env) =
      (revs, some u)) : progressBytes revs = [] := by
  have h := progressBytes_resolveGo env.server (bearer env.token) fuel
    (startUrl env)
  rw [hres] at h
  exact h

lemma dp_progressBytes (env : Env) (fuel : Nat) (r : DPResult)
    (hr : downloadProduct env fuel = some r) :
    progressBytes r.events = [] ∨
    ∃ total mir, progressBytes r.events =
      progressBytes (streamGo total mir env.chunks env.failAfter 0 []).events := by
  have hpre0 : progressBytes (if env.dirExists then ([] : List Event)
      else [Event.makedirs]) = [] := by
    by_cases hd : env.dirExists <;> simp [hd, progressBytes]
  simp only [downloadProduct] at hr
  by_cases h1 : (!env.dirExists && !env.makedirsOk) = true
  · rw [if_pos h1] at hr
    obtain rfl := Option.some.inj hr
    exact Or.inl (by simp [progressBytes])
  · rw [if_neg h1] at hr
    by_cases h2 : env.fileAtFinal = true
    · rw [if_pos h2] at hr
      obtain rfl := Option.some.inj hr
      exact Or.inl hpre0
    · rw [if_neg h2] at hr
      by_cases h3 : (!env.dirWritable) = true
      · rw [if_pos h3] at hr
        obtain rfl := Option.some.inj hr
        exact Or.inl hpre0
      · rw [if_neg h3] at hr
        rcases hres : resolveGo env.server (bearer env.token) fuel
            (startUrl env) with ⟨revs, ou⟩
        rw [hres] at hr
        cases ou with
        | none => dsimp only at hr; cases hr
        | some u =>
          dsimp only at hr
          have hpre2 : progressBytes ((if env.dirExists then ([] : List Event)
              else [Event.makedirs]) ++ [Event.markerTest] ++ revs ++
              [Event.request .headProbe u (bearer env.token)]) = [] := by
            simp only [progressBytes_append, hpre0, progressBytes_revs hres]
            simp [progressBytes]
          rcases h4 : env.headResult with _ | t
          · rw [h4] at hr
            dsimp only at hr
            exact Or.inr (streamPhase_progressBytes env u 0 _ r hpre2 hr)
          · rw [h4] at hr
            rcases h5 : env.freeSpace with _ | f
            · rw [h5] at hr
              dsimp only at hr
              exact Or.inr (streamPhase_progressBytes env u t _ r hpre2 hr)
            · rw [h5] at hr
              dsimp only at hr
              by_cases h6 : ((f : ℚ) < (t : ℚ) * (6 / 5))
              · rw [if_pos h6] at hr
                obtain rfl := Option.some.inj hr
                exact Or.inl hpre2
              · rw [if_neg h6] at hr
                exact Or.inr (streamPhase_progressBytes env u t _ r hpre2 hr)

lemma mem_of_mem_pyStrip {c : Char} {l : List Char} (h : c ∈ pyStrip l) :
    c ∈ l := by
  rw [pyStrip, List.mem_reverse] at h
  have h2 : c ∈ (l.dropWhile isPySpace).reverse :=
    (List.dropWhile_sublist _).mem h
  rw [List.mem_reverse] at h2
  exact (List.dropWhile_sublist _).mem h2

lemma workerStream_fa0 (total : Nat) (chunks : List Nat) (d : Nat) :
    workerStream total chunks (some 0) d = ([], d, true) := by
  rw [workerStream.eq_def]
  simp

lemma workerStream_nil (total : Nat) (fa : Option Nat) (d : Nat)
    (h : fa ≠ some 0) : workerStream total [] fa d = ([], d, false) := by
  rw [workerStream]
  simp [h]

lemma workerStream_cons_zero (total : Nat) (rest : List Nat)
    (fa : Option Nat) (d : Nat) (h : fa ≠ some 0) :
    workerStream total (0 :: rest) fa d =
      workerStream total rest (fa.map (· - 1)) d := by
  rw [workerStream]
  simp [h]

lemma workerStream_cons_pos (total : Nat) (c : Nat) (rest : List Nat)
    (fa : Option Nat) (d : Nat) (h : fa ≠ some 0) (hc : c ≠ 0) :
    workerStream total (c :: rest) fa d =
      (WMsg.progress (pct (d + c) total) (d + c) total ::
        (workerStream total rest (fa.map (· - 1)) (d + c)).1,
       (workerStream total rest (fa.map (· - 1)) (d + c)).2) := by
  conv_lhs => rw [workerStream]
  simp [h, hc]

lemma workerProgressBytes_append (l₁ l₂ : List WMsg) :
    workerProgressBytes (l₁ ++ l₂) =
      workerProgressBytes l₁ ++ workerProgressBytes l₂ := by
  simp [workerProgressBytes]

lemma workerProgressBytes_complete (p : String) :
    workerProgressBytes [WMsg.complete p] = [] := by
  simp [workerProgressBytes]

lemma workerProgressBytes_error (s : String) :
    workerProgressBytes [WMsg.error s] = [] := by
  simp [workerProgressBytes]

lemma workerStream_progress_mono (total : Nat) :
    ∀ (chunks : List Nat) (fa : Option Nat) (d : Nat),
      List.Chain' (· ≤ ·)
        (workerProgressBytes (workerStream total chunks fa d).1) ∧
      ∀ x ∈ workerProgressBytes (workerStream total chunks fa d).1,
        d ≤ x := by
  intro chunks
  induction chunks with
  | nil =>
    intro fa d
    by_cases h : fa = some 0
    · subst h; rw [workerStream_fa0]; simp [workerProgressBytes]
    · rw [workerStream_nil _ _ _ h]; simp [workerProgressBytes]
  | cons c rest ih =>
    intro fa d
    by_cases h : fa = some 0
    · subst h; rw [workerStream_fa0]; simp [workerProgressBytes]
    · by_cases hc : c = 0
      · subst hc
        rw [workerStream_cons_zero _ _ _ _ h]
        exact ih _ _
      · have hred : workerProgressBytes
            (workerStream total (c :: rest) fa d).1 =
            (d + c) :: workerProgressBytes
              (workerStream total rest (fa.map (· - 1)) (d + c)).1 := by
          rw [workerStream_cons_pos _ _ _ _ _ h hc]
          simp [workerProgressBytes]
        obtain ⟨ihc, ihb⟩ := ih (fa.map (· - 1)) (d + c)
        rw [hred]
        constructor
        · refine List.chain'_cons'.2 ⟨?_, ihc⟩
          intro y hy
          exact ihb y (List.mem_of_mem_head? hy)
        · intro x hx
          rcases List.mem_cons.1 hx with rfl | hx
          · omega
          · exact (Nat.le_add_right d c).trans (ihb x hx)

lemma workerStream_none_not_aborted (total : Nat) :
    ∀ (chunks : List Nat) (d : Nat),
      (workerStream total chunks none d).2.2 = false := by
  intro chunks
  induction chunks with
  | nil => intro d; rw [workerStream_nil] <;> simp
  | cons c rest ih =>
    intro d
    by_cases hc : c = 0
    · subst hc
      rw [workerStream_cons_zero] <;> simp [ih]
    · rw [workerStream_cons_pos _ _ _ _ _ (by simp) hc]
      simpa using ih (d + c)

lemma workerStream_sum_zero (total : Nat) :
    ∀ (chunks : List Nat) (d : Nat), chunks.sum = 0 →
      workerStream total chunks none d = ([], d, false) := by
  intro chunks
  induction chunks with
  | nil => intro d _; rw [workerStream_nil] <;> simp
  | cons c rest ih =>
    intro d hs
    have hc : c = 0 := by simp at hs; omega
    have hr : rest.sum = 0 := by simp at hs; omega
    subst hc
    rw [workerStream_cons_zero _ _ _ _ (by simp)]
    simpa using ih d hr

lemma workerStream_last (total : Nat) :
    ∀ (chunks : List Nat) (d : Nat),
      d + chunks.sum = total → 0 < chunks.sum →
      ∃ pre, (workerStream total chunks none d).1 =
        pre ++ [WMsg.progress (pct total total) total total] := by
  intro chunks
  induction chunks with
  | nil => intro d _ hpos; simp at hpos
  | cons c rest ih =>
    intro d hsum hpos
    by_cases hc : c = 0
    · subst hc
      rw [workerStream_cons_zero _ _ _ _ (by simp), Option.map_none']
      exact ih d (by simpa using hsum) (by simpa using hpos)
    · rw [workerStream_cons_pos _ _ _ _ _ (by simp) hc, Option.map_none']
      by_cases hr : rest.sum = 0
      · have hd2 : d + c = total := by simp at hsum; omega
        rw [workerStream_sum_zero _ _ _ hr]
        exact ⟨[], by simp [hd2]⟩
      · have hsum' : (d + c) + rest.sum = total := by simp at hsum; omega
        obtain ⟨pre, hpre⟩ := ih (d + c) hsum' (Nat.pos_of_ne_zero hr)
        refine ⟨WMsg.progress (pct (d + c) total) (d + c) total :: pre, ?_⟩
        simp [hpre]

/-- C2: if the destination directory already contains a file at the derived
final path, the run returns `AlreadyExists` carrying that path with an empty
event trace — in particular zero network requests and zero file writes, the
existing file untouched — and re-invoking the same request returns the same
result: a no-op. -/
theorem c2_already_exists_idempotent (env : Env) (fuel : Nat)
    (hdir : env.dirExists = true) (hfile : env.fileAtFinal = true) :
    downloadProduct env fuel =
      some ⟨Outcome.alreadyExists (finalPath env), [], true, false⟩ ∧
    ∀ fuel2, downloadProduct env fuel2 = downloadProduct env fuel := by
  have hmain : ∀ f2 : Nat, downloadProduct env f2 =
      some ⟨Outcome.alreadyExists (finalPath env), [], true, false⟩ := by
    intro f2
    simp [downloadProduct, hdir, hfile]
  exact ⟨hmain fuel, fun f2 => (hmain f2).trans (hmain fuel).symm⟩

theorem c2_witness :
    downloadProduct envC2 1 =
      some ⟨Outcome.alreadyExists (finalPath envC2), [], true, false⟩ :=
  (c2_already_exists_idempotent envC2 1 rfl rfl).1

/-- C10: the existing-file check precedes the `.write_test` marker test:
with a file at the final path the run returns `AlreadyExists` with an empty
event trace — no marker file written or deleted and no network request —
even when the destination directory is not writable. -/
theorem c10_exists_check_before_write_test (env : Env) (fuel : Nat)
    (hdir : env.dirExists = true) (hfile : env.fileAtFinal = true)
    (_hw : env.dirWritable = false) :
    downloadProduct env fuel =
      some ⟨Outcome.alreadyExists (finalPath env), [], true, false⟩ := by
  simp [downloadProduct, hdir, hfile]

theorem c10_witness :
    downloadProduct envC10 1 =
      some ⟨Outcome.alreadyExists (finalPath envC10), [], true, false⟩ :=
  c10_exists_check_before_write_test envC10 1 rfl rfl rfl

/-- C6 is false as stated: Python's `isalnum` is Unicode-aware, so the
product name `"Sé2"` derives the filename `"Sé2.zip"`, which keeps `é`
(U+00E9), a character outside the whitelist `[A-Za-z0-9 _.-]` that the claim
says is dropped.  Every character of this name has a code point at most
U+00FF, where `pyIsAlnum` is exactly Python's `str.isalnum`, so the
instantiated run is the program's. -/
theorem c6_counterexample :
    'é' ∈ derivedFilename pyIsAlnum ['S', 'é', '2'] ∧
    (derivedFilename pyIsAlnum ['S', 'é', '2']).all inWhitelist = false := by
  constructor <;> decide

/-- C6 (amended): the derived filename is the sanitized name followed by
`.zip`, where every character of the sanitized name satisfies the source's
filter — Python-alphanumeric or space, hyphen, underscore, dot — and every
character failing that filter is dropped.  Python's Unicode character table
is not finitely reproduced here, so the statement is proved for every
alphanumeric predicate; the program is the instance at the runtime's actual
`str.isalnum`.  On ASCII-only names the filter coincides with the claimed
whitelist. -/
theorem c6_sanitizer_keeps_filter (isalnum : Char → Bool) (name : List Char) :
    (∀ c ∈ cleanName isalnum name, keepChar isalnum c = true) ∧
    (∀ c, keepChar isalnum c = false → c ∉ cleanName isalnum name) ∧
    derivedFilename isalnum name =
      cleanName isalnum name ++ (".zip").toList := by
  have hmem : ∀ c ∈ cleanName isalnum name, keepChar isalnum c = true := by
    intro c hc
    exact List.of_mem_filter (mem_of_mem_pyStrip hc)
  refine ⟨hmem, ?_, rfl⟩
  intro c hkc hmem2
  have hk2 := hmem c hmem2
  rw [hkc] at hk2
  simp at hk2

theorem c6_witness :
    keepChar pyIsAlnum '/' = false ∧
    '/' ∉ cleanName pyIsAlnum ['S', '/', '2'] :=
  ⟨by decide,
    (c6_sanitizer_keeps_filter pyIsAlnum ['S', '/', '2']).2.1 '/' (by decide)⟩

/-- C3 is right about the intent but wrong about the code: the source
enforces no redirect hop cap and has no `TooManyRedirects` error.  On a
server answering every request with a `307` redirect, the resolution loop is
still running after the claimed 10-hop bound and after any number of hops:
it loops forever instead of failing. -/
theorem c3_redirect_cycle_loops_forever :
    (resolveGo cyc307 (bearer "tok") 10 "http://start.example/p").2 = none ∧
    ∀ n, (resolveGo cyc307 (bearer "tok") n "http://start.example/p").2 = none := by
  exact ⟨rfl, fun n =>
    resolveGo_allRedirect cyc307 (bearer "tok") (fun u => rfl) n _⟩

/-- C9: every request issued while following the redirect chain — including
the request sent to the host named by the previous `Location` header —
carries the caller's `Authorization: Bearer <token>` value unchanged. -/
theorem c9_redirect_requests_carry_bearer (server : String → HResp)
    (token : String) (n : Nat) (url : String) (kind : ReqKind)
    (u' a : String)
    (he : Event.request kind u' a ∈ (resolveGo server (bearer token) n url).1) :
    a = bearer token ∧ kind = ReqKind.redirectGet := by
  obtain ⟨u2, hu⟩ := resolveGo_events_auth server (bearer token) n url _ he
  injection hu with hk hu2 ha
  exact ⟨ha, hk⟩

theorem c9_witness :
    Event.request ReqKind.redirectGet "http://payload.example/file"
      "Bearer tok" ∈ (resolveGo twoHopServer (bearer "tok") 2
        (startUrl envBase)).1 ∧
    "Bearer tok" = bearer "tok" ∧ ReqKind.redirectGet = ReqKind.redirectGet := by
  have hmem : Event.request ReqKind.redirectGet "http://payload.example/file"
      "Bearer tok" ∈ (resolveGo twoHopServer (bearer "tok") 2
        (startUrl envBase)).1 := by decide
  exact ⟨hmem, c9_redirect_requests_carry_bearer twoHopServer "tok" 2
    (startUrl envBase) ReqKind.redirectGet "http://payload.example/file"
    "Bearer tok" hmem⟩

/-- C5: with the total size known from the HEAD probe, a free-space answer
below `total_size * 1.2` makes the run fail with `InsufficientDiskSpace`
before the body GET is ever issued and before any chunk is written; when the
free-space probe itself raises, the check is skipped and the body GET is
issued. -/
theorem c5_disk_space_gate (env : Env) (fuel : Nat) (revs : List Event)
    (u : String) (t : Nat)
    (hdir : env.dirExists = true) (hfile : env.fileAtFinal = false)
    (hw : env.dirWritable = true)
    (hres : resolveGo env.server (bearer env.token) fuel (startUrl env) =
      (revs, some u))
    (hhead : env.headResult = some t) :
    (∀ f, env.freeSpace = some f → (f : ℚ) < (t : ℚ) * (6 / 5) →
      downloadProduct env fuel =
        some ⟨Outcome.insufficientDiskSpace t f,
          [Event.markerTest] ++ revs ++
            [Event.request .headProbe u (bearer env.token)], false, false⟩ ∧
      (∀ u' a, Event.request .bodyGet u' a ∉
        [Event.markerTest] ++ revs ++
          [Event.request .headProbe u (bearer env.token)]) ∧
      (∀ c, Event.chunkWrite c ∉
        [Event.markerTest] ++ revs ++
          [Event.request .headProbe u (bearer env.token)])) ∧
    (env.freeSpace = none →
      ∃ r, downloadProduct env fuel = some r ∧
        Event.request .bodyGet u (bearer env.token) ∈ r.events) := by
  constructor
  · intro f hf hlt
    refine ⟨dp_insufficient env fuel revs u t f hdir hfile hw hres hhead hf hlt,
      ?_, ?_⟩
    · intro u' a hmem
      rcases mem_pre2_shapes hres hmem with h1 | ⟨u2, h2⟩ | h3
      · exact Event.noConfusion h1
      · simp at h2
      · simp at h3
    · intro c hmem
      rcases mem_pre2_shapes hres hmem with h1 | ⟨u2, h2⟩ | h3
      · exact Event.noConfusion h1
      · simp at h2
      · simp at h3
  · intro hf
    have hgate : gateOk env = true := by simp [gateOk, hhead, hf]
    rw [dp_happy env fuel revs u hdir hfile hw hres hgate]
    exact streamPhase_bodyGet env u (headTotal env) _

theorem c5_witness :
    downloadProduct envC5 2 =
      some ⟨Outcome.insufficientDiskSpace 10 11,
        [Event.markerTest] ++ revsBase ++
          [Event.request .headProbe "http://payload.example/file"
            (bearer "tok")], false, false⟩ :=
  ((c5_disk_space_gate envC5 2 revsBase "http://payload.example/file" 10
    rfl rfl rfl (by decide) rfl).1 11 rfl (by norm_num)).1

/-- C7: when the server omits Content-Length on both the HEAD probe and the
GET response, the transfer still completes (with no in-memory copy), the
final file exists afterwards, and every emitted progress event carries
total 0 and percent 0 — no division error. -/
theorem c7_unknown_size_completes (env : Env) (fuel : Nat) (revs : List Event)
    (u : String)
    (hdir : env.dirExists = true) (hfile : env.fileAtFinal = false)
    (hw : env.dirWritable = true)
    (hres : resolveGo env.server (bearer env.token) fuel (startUrl env) =
      (revs, some u))
    (hhead : env.headResult = some 0) (hget : env.getTotal = 0)
    (hfa : env.failAfter = none) :
    ∃ r, downloadProduct env fuel = some r ∧
      r.outcome = Outcome.completed (finalPath env) none ∧
      r.finalExists = true ∧
      ∀ d t p, Event.progress d t p ∈ r.events → t = 0 ∧ p = 0 := by
  have hgate := gateOk_of_head_zero env hhead
  rw [dp_happy env fuel revs u hdir hfile hw hres hgate,
      streamPhase_of_none env u (headTotal env) _ hfa]
  have htot : (if headTotal env = 0 then env.getTotal else headTotal env) = 0 := by
    simp [headTotal, hhead, hget]
  simp only [htot]
  refine ⟨_, rfl, ?_, rfl, ?_⟩
  · simp
  · intro d t p hmem
    rcases List.mem_append.1 hmem with hm | hm
    · rcases List.mem_append.1 hm with hm2 | hm2
      · rcases List.mem_append.1 hm2 with hm3 | hm3
        · rcases mem_pre2_shapes hres hm3 with h1 | ⟨u2, h2⟩ | h3
          · exact Event.noConfusion h1
          · simp at h2
          · simp at h3
        · simp at hm3
      · exact streamGo_total_zero_progress _ env.chunks none 0 [] d t p hm2
    · simp at hm

theorem c7_witness :
    ∃ r, downloadProduct envC7 2 = some r ∧
      r.outcome = Outcome.completed (finalPath envC7) none ∧
      r.finalExists = true ∧
      ∀ d t p, Event.progress d t p ∈ r.events → t = 0 ∧ p = 0 :=
  c7_unknown_size_completes envC7 2 revsBase "http://payload.example/file"
    rfl rfl rfl (by decide) rfl rfl rfl

/-- C8: on a successful transfer the in-memory copy of the `Completed`
outcome is populated exactly when the effective total size is known
(positive) and strictly below the 200 MiB threshold; otherwise it is
`none`. -/
theorem c8_memory_copy_iff_small (env : Env) (fuel : Nat) (revs : List Event)
    (u : String)
    (hdir : env.dirExists = true) (hfile : env.fileAtFinal = false)
    (hw : env.dirWritable = true)
    (hres : resolveGo env.server (bearer env.token) fuel (startUrl env) =
      (revs, some u))
    (hgate : gateOk env = true) (hfa : env.failAfter = none) :
    ∃ r mem, downloadProduct env fuel = some r ∧
      r.outcome = Outcome.completed (finalPath env) mem ∧
      (mem.isSome ↔
        (0 < effTotal env ∧ effTotal env < 200 * 1024 * 1024)) := by
  rw [dp_happy env fuel revs u hdir hfile hw hres hgate,
      streamPhase_of_none env u (headTotal env) _ hfa]
  have htot : (if headTotal env = 0 then env.getTotal else headTotal env) =
      effTotal env := rfl
  simp only [htot]
  refine ⟨_, _, rfl, rfl, ?_⟩
  by_cases hp : 0 < effTotal env ∧ effTotal env < 200 * 1024 * 1024
  · simp [hp]
  · simp [hp]

theorem c8_witness :
    ∃ r mem, downloadProduct envBase 2 = some r ∧
      r.outcome = Outcome.completed (finalPath envBase) mem ∧
      (mem.isSome ↔
        (0 < effTotal envBase ∧ effTotal envBase < 200 * 1024 * 1024)) :=
  c8_memory_copy_iff_small envBase 2 revsBase "http://payload.example/file"
    rfl rfl rfl (by decide) (by norm_num [gateOk, envBase]) rfl

/-- C1 is false as stated for `download_worker` (download_handler.py): it
streams directly into `<product_name>.zip` with no temp file and no cleanup,
so an exception after one chunk reports an error yet leaves a (partial) file
at the final path. -/
theorem c1_counterexample :
    (downloadWorker twoHopServer "pid" "tok" "P1" "/data" 100 [4, 4, 4]
      (some 1) 2).map WorkerOut.fileAtFinal = some true ∧
    (downloadWorker twoHopServer "pid" "tok" "P1" "/data" 100 [4, 4, 4]
      (some 1) 2).map (fun r => r.msgs.getLast?) =
      some (some (WMsg.error "download error")) := by
  constructor <;> decide

/-- C1 (amended): for the `download_product` implementation (app.py and
copernicus_hub.py) a mid-stream exception after any number of chunks yields
a failure outcome with no file at the final path; at most the `.zip.part`
temp file remains (absent when its best-effort removal succeeds), and the
rename of the temp path onto the final path never happens on this path — it
is emitted only after the whole body is consumed.  The `download_worker`
variant of download_handler.py instead writes `<name>.zip` directly and can
leave a partial file at the final path. -/
theorem c1_download_product_atomic (env : Env) (fuel : Nat)
    (revs : List Event) (u : String) (k : Nat)
    (hdir : env.dirExists = true) (hfile : env.fileAtFinal = false)
    (hw : env.dirWritable = true)
    (hres : resolveGo env.server (bearer env.token) fuel (startUrl env) =
      (revs, some u))
    (hgate : gateOk env = true)
    (hfa : env.failAfter = some k) (hk : k ≤ env.chunks.length) :
    ∃ r, downloadProduct env fuel = some r ∧
      r.outcome = Outcome.streamFailed ∧
      r.finalExists = false ∧
      r.tempExists = !env.removeTempOk ∧
      Event.renameTempToFinal ∉ r.events := by
  rw [dp_happy env fuel revs u hdir hfile hw hres hgate,
      streamPhase_of_abort env u (headTotal env) _ k hfa hk]
  refine ⟨_, rfl, rfl, hfile, rfl, ?_⟩
  intro hmem
  rcases List.mem_append.1 hmem with hm | hm
  · rcases List.mem_append.1 hm with hm2 | hm2
    · rcases List.mem_append.1 hm2 with hm3 | hm3
      · rcases mem_pre2_shapes hres hm3 with h1 | ⟨u2, h2⟩ | h3
        · exact Event.noConfusion h1
        · simp at h2
        · simp at h3
      · simp at hm3
    · rcases streamGo_events_shape _ _ env.chunks (some k) 0 [] _ hm2 with
        ⟨c, hcw⟩ | ⟨d', t', p', hp⟩
      · exact Event.noConfusion hcw
      · exact Event.noConfusion hp
  · by_cases hok : env.removeTempOk = true <;> simp [hok] at hm

theorem c1_witness :
    ∃ r, downloadProduct envC1 2 = some r ∧
      r.outcome = Outcome.streamFailed ∧
      r.finalExists = false ∧
      r.tempExists = !envC1.removeTempOk ∧
      Event.renameTempToFinal ∉ r.events :=
  c1_download_product_atomic envC1 2 revsBase "http://payload.example/file" 1
    rfl rfl rfl (by decide) (by norm_num [gateOk, envC1, envBase]) rfl
    (by decide)

/-- C4: in both implementations of the transfer, the `downloaded` values of
the emitted progress events are monotonically non-decreasing, and a
successful transfer of known positive total `T` (chunks summing to `T`) ends
with a progress event carrying downloaded `T` and percent 100, emitted
immediately before success is signaled: for `download_product` the event
precedes the final rename, for `download_worker` the progress message
precedes the `complete` queue message. -/
theorem c4_progress_monotone_final :
    (∀ (env : Env) (fuel : Nat) (r : DPResult),
      downloadProduct env fuel = some r →
      List.Chain' (· ≤ ·) (progressBytes r.events)) ∧
    (∀ (env : Env) (fuel : Nat) (revs : List Event) (u : String) (T : Nat),
      env.dirExists = true → env.fileAtFinal = false →
      env.dirWritable = true →
      resolveGo env.server (bearer env.token) fuel (startUrl env) =
        (revs, some u) →
      gateOk env = true → env.failAfter = none →
      effTotal env = T → 0 < T → env.chunks.sum = T →
      ∃ r pre mem, downloadProduct env fuel = some r ∧
        r.outcome = Outcome.completed (finalPath env) mem ∧
        r.events = pre ++
          [Event.progress T T 100, Event.renameTempToFinal]) ∧
    (∀ (server : String → HResp)
      (productId token productName outputDir : String) (getTotal : Nat)
      (chunks : List Nat) (fa : Option Nat) (fuel : Nat) (w : WorkerOut),
      downloadWorker server productId token productName outputDir getTotal
        chunks fa fuel = some w →
      List.Chain' (· ≤ ·) (workerProgressBytes w.msgs)) ∧
    (∀ (server : String → HResp)
      (productId token productName outputDir : String) (T : Nat)
      (chunks : List Nat) (fuel : Nat) (revs : List Event) (u : String),
      resolveGo server (bearer token) fuel
        ("https://catalogue.dataspace.copernicus.eu/odata/v1/Products(" ++
          productId ++ ")/$value") = (revs, some u) →
      0 < T → chunks.sum = T →
      ∃ w pre, downloadWorker server productId token productName outputDir
          T chunks none fuel = some w ∧
        w.msgs = pre ++ [WMsg.progress 100 T T,
          WMsg.complete (workerOutputPath outputDir productName)]) := by
  refine ⟨?_, ?_, ?_, ?_⟩
  · intro env fuel r hr
    rcases dp_progressBytes env fuel r hr with h | ⟨total, mir, h⟩
    · rw [h]; exact List.chain'_nil
    · rw [h]
      exact (streamGo_progress_mono total mir env.chunks env.failAfter 0 []).1
  · intro env fuel revs u T hdir hfile hw hres hgate hfa hT hTpos hsum
    rw [dp_happy env fuel revs u hdir hfile hw hres hgate,
        streamPhase_of_none env u (headTotal env) _ hfa]
    have htot : (if headTotal env = 0 then env.getTotal else headTotal env) =
        T := hT
    simp only [htot]
    obtain ⟨spre, hsp⟩ := streamGo_last_progress T
      (decide (0 < T ∧ T < 200 * 1024 * 1024)) env.chunks 0 []
      (by simpa using hsum) (by omega)
    refine ⟨_, ([Event.markerTest] ++ revs ++
      [Event.request .headProbe u (bearer env.token)] ++
      [Event.request .bodyGet u (bearer env.token)] ++ spre), _, rfl, rfl, ?_⟩
    rw [hsp, pct_self hTpos]
    simp [List.append_assoc]
  · intro server productId token productName outputDir getTotal chunks fa
      fuel w hw
    simp only [downloadWorker] at hw
    rcases hres : resolveGo server (bearer token) fuel
        ("https://catalogue.dataspace.copernicus.eu/odata/v1/Products(" ++
          productId ++ ")/$value") with ⟨revs, ou⟩
    rw [hres] at hw
    cases ou with
    | none => dsimp only at hw; cases hw
    | some u =>
      dsimp only at hw
      by_cases hab : (workerStream getTotal chunks fa 0).2.2 = true
      · rw [if_pos hab] at hw
        obtain rfl := Option.some.inj hw
        simp only [workerProgressBytes_append, workerProgressBytes_error,
          List.append_nil]
        exact (workerStream_progress_mono getTotal chunks fa 0).1
      · rw [if_neg hab] at hw
        obtain rfl := Option.some.inj hw
        simp only [workerProgressBytes_append, workerProgressBytes_complete,
          List.append_nil]
        exact (workerStream_progress_mono getTotal chunks fa 0).1
  · intro server productId token productName outputDir T chunks fuel revs u
      hres hTpos hsum
    simp only [downloadWorker]
    rw [hres]
    dsimp only
    rw [if_neg (by simp [workerStream_none_not_aborted T chunks 0])]
    obtain ⟨pre, hpre⟩ :=
      workerStream_last T chunks 0 (by simpa using hsum) (by omega)
    refine ⟨_, pre, rfl, ?_⟩
    show (workerStream T chunks none 0).1 ++
        [WMsg.complete (workerOutputPath outputDir productName)] =
      pre ++ [WMsg.progress 100 T T,
        WMsg.complete (workerOutputPath outputDir productName)]
    rw [hpre, pct_self hTpos]
    simp

theorem c4_witness :
    (∃ r pre mem, downloadProduct envBase 2 = some r ∧
      r.outcome = Outcome.completed (finalPath envBase) mem ∧
      r.events = pre ++
        [Event.progress 10 10 100, Event.renameTempToFinal] ∧
      List.Chain' (· ≤ ·) (progressBytes r.events)) ∧
    (∃ w pre2, downloadWorker twoHopServer "pid" "tok" "P1" "/data" 10
        [4, 6] none 2 = some w ∧
      w.msgs = pre2 ++ [WMsg.progress 100 10 10,
        WMsg.complete (workerOutputPath "/data" "P1")] ∧
      List.Chain' (· ≤ ·) (workerProgressBytes w.msgs)) := by
  constructor
  · obtain ⟨r, pre, mem, hr, ho, hev⟩ :=
      c4_progress_monotone_final.2.1 envBase 2 revsBase
        "http://payload.example/file" 10 rfl rfl rfl (by decide)
        (by norm_num [gateOk, envBase]) rfl rfl (by norm_num) (by decide)
    exact ⟨r, pre, mem, hr, ho, hev,
      c4_progress_monotone_final.1 envBase 2 r hr⟩
  · obtain ⟨w, pre2, hw, hmsgs⟩ :=
      c4_progress_monotone_final.2.2.2 twoHopServer "pid" "tok" "P1" "/data"
        10 [4, 6] 2 revsBase "http://payload.example/file" (by decide)
        (by norm_num) (by decide)
    exact ⟨w, pre2, hw, hmsgs,
      c4_progress_monotone_final.2.2.1 twoHopServer "pid" "tok" "P1" "/data"
        10 [4, 6] none 2 w hw⟩
